import Mathlib

/-!
Shallow embedding of the personal-finance-tracker core
(`src/categorize.py` and `src/tracker.py`).

Modelling conventions:
* Python floats (money amounts) are modelled as exact rationals `ℚ`;
  a float-valued cell that can also be NaN is modelled by `PFloat`
  (`val q` or `nan`), with NaN propagating through arithmetic.
* Python `None` is `Option.none`; it is kept distinct from NaN,
  because `None` is falsy and `float(None)` raises, while NaN is
  truthy and `float(nan)` succeeds.
* A pandas missing date or category (`NaT` / `pd.NA`) is modelled as
  `none` of an `Option` type; a missing money cell is `PFloat.nan`.
* A Python regex of the form `kw1|kw2|...` made of literal keywords is
  modelled as the list of its keywords; `re.search` on such a pattern
  succeeds iff some keyword occurs as a contiguous substring of the
  description.  The catch-all pattern `.*` is modelled as the single
  keyword `""` (the empty string occurs in every string).
* `str.lower()` is modelled as mapping `Char.toLower` over the
  characters (the descriptions in play are basic-latin text).
* `str.strip()` is modelled as `pyStrip`, dropping leading and
  trailing whitespace characters; Python truthiness of the stripped
  string (`if s.strip():`) is `pyStrip s ≠ ""`.
-/

namespace Tracker

/-- Money values (Python floats) modelled as exact rationals. -/
abbrev Money := ℚ

/-- A Python float as held in a money column: an ordinary (exact)
number or NaN.  A missing stored balance is NaN: `float(nan)` succeeds
and NaN is truthy in Python, so NaN must not be collapsed into
Python's `None` (which is `Option.none` in this embedding). -/
inductive PFloat where
  | val (q : Money)
  | nan
  deriving DecidableEq, Repr

/-- Float subtraction of a number: NaN propagates. -/
def PFloat.sub : PFloat → Money → PFloat
  | PFloat.val q, s => PFloat.val (q - s)
  | PFloat.nan, _ => PFloat.nan

/-- Float addition of a number: NaN propagates. -/
def PFloat.add : PFloat → Money → PFloat
  | PFloat.val q, s => PFloat.val (q + s)
  | PFloat.nan, _ => PFloat.nan

/-- pandas `fillna(default)` on one cell. -/
def PFloat.fillna : PFloat → Money → Money
  | PFloat.val q, _ => q
  | PFloat.nan, d => d

/-- Python `x or 0.0` on an optional float: `None` and the float `0.0`
are falsy and yield the default `0.0`; every other float, NaN
included, is truthy and is kept. -/
def orZero : Option PFloat → PFloat
  | none => PFloat.val 0
  | some (PFloat.val q) => if q = 0 then PFloat.val 0 else PFloat.val q
  | some PFloat.nan => PFloat.nan

/-- Python `str.lower()` modelled character-wise. -/
def lowerStr (s : String) : String := ⟨s.data.map Char.toLower⟩

/-- Python `str.strip()`: drop leading and trailing whitespace. -/
def pyStrip (s : String) : String :=
  ⟨((s.data.dropWhile Char.isWhitespace).reverse.dropWhile
      Char.isWhitespace).reverse⟩

/-- The ordered rule set `CATEGORY_RULES` of `src/categorize.py`
(a Python 3.7+ dict preserves insertion order).  Each entry's single
regex `kw1|kw2|...` is modelled as its list of literal keywords; the
fallback regex `.*` of the final entry is the keyword `""`. -/
def CATEGORY_RULES : List (String × List String) :=
  [ ("Food",      ["starbucks", "cafe", "restaurant", "swiggy", "zomato",
                   "pizza", "maggie", "coffee", "burger"]),
    ("Transport", ["uber", "ola", "metro", "bus", "train", "cab", "taxi",
                   "auto", "fuel", "petrol", "diesel"]),
    ("Shopping",  ["amazon", "flipkart", "myntra", "nykaa", "zara", "h&m",
                   "mall", "store", "earphones", "clothes"]),
    ("Housing",   ["rent", "pg", "maintenance", "electricity",
                   "water bill", "gas bill", "wifi", "broadband"]),
    ("Health",    ["pharmacy", "chemist", "doctor", "hospital", "clinic",
                   "medicine", "gym"]),
    ("Pleasure",  ["movie", "cinema", "netflix", "spotify", "prime",
                   "gaming", "ps", "steam"]),
    ("Other",     [""]) ]

/-- Contiguous-substring test on character lists (the semantics of
`re.search` for a pattern made of a literal keyword). -/
def hasSubstr (needle : List Char) : List Char → Bool
  | [] => needle.isEmpty
  | c :: rest => needle.isPrefixOf (c :: rest) || hasSubstr needle rest

/-- One rule matches iff any of its keywords occurs as a substring of
the description (`re.search(pat, desc)` for an alternation of
literals). -/
def ruleMatches (kws : List String) (desc : String) : Bool :=
  kws.any fun kw => hasSubstr kw.data desc.data

/-- The rule-scanning loop of `classify`: return the label of the first
matching rule, falling back to `"Other"` (unreachable, since the last
rule matches everything). -/
def classifyDesc (desc : String) : String :=
  match CATEGORY_RULES.find? (fun rule => ruleMatches rule.2 desc) with
  | some rule => rule.1
  | none => "Other"

/-- The inner `classify(desc, existing)` of `auto_categorize`:
keep `existing` whenever it is present (`pd.notna`) and truthy after
`strip()`; otherwise scan the rules. -/
def classify (desc : String) (existing : Option String) : String :=
  match existing with
  | some c => if pyStrip c = "" then classifyDesc desc else c
  | none => classifyDesc desc

/-- A canonical transaction record (one row of the store).
`date = none` is the unknown-date sentinel (`NaT`);
`category = none` is a missing category (`pd.NA`);
`money_left = PFloat.nan` is a missing balance (`NaN`). -/
structure Record where
  date : Option String
  category : Option String
  description : String
  money_spent : Money
  money_left : PFloat
  payment_method : String
  deriving DecidableEq, Repr

/-- The per-row effect of `auto_categorize`: the description is
lower-cased in place (destructively) and the category recomputed
through `classify`; every other column is untouched. -/
def classifyRow (r : Record) : Record :=
  let d := lowerStr r.description
  { r with description := d, category := some (classify d r.category) }

/-- The batch classifier `auto_categorize(df)` applies `classifyRow`
to every row.  The `if df.empty: return df` guard is the `[]` case of
`List.map`. -/
def auto_categorize (rs : List Record) : List Record :=
  rs.map classifyRow

/-- The error raised by `add_expense` when no balance anchor exists
(`raise SystemExit("First entry needs --start ... or --left ...")`),
called `MissingBalanceAnchor` in the specification. -/
inductive TrackerError where
  | missingBalanceAnchor
  deriving DecidableEq, Repr

/-- The helper `last_balance()`: `None` when the store is empty, else
`float()` of the last row's `money_left`.  `float()` succeeds on every
float cell, NaN included — a missing last balance comes back as NaN,
not as `None`; the `except` branch would fire only for non-float
garbage in an externally edited CSV, which the record model cannot
hold. -/
def last_balance : List Record → Option PFloat
  | [] => none
  | [r] => some r.money_left
  | _ :: r :: rest => last_balance (r :: rest)

/-- The core of `add_expense(date, category, description, money_spent,
money_left=None, start_balance=None)`: determine the base balance
(explicit `--start` wins, else the last stored balance), fail with the
missing-anchor error only when the base is Python `None` (ledger
empty) and neither `--start` nor `--left` is given — a NaN last
balance is not `None`, so the append proceeds and `base - spent`
stores NaN — compute `money_left = base - spent` unless `--left` was
supplied, build the row (with `payment_method = "UPI"`), append it and
re-run `auto_categorize` over the combined store.  The error path
raises before any write, so the persisted store is untouched; the
success value is the new full store handed to `to_csv`. -/
def expense_base (store : List Record) (start_balance : Option Money) :
    Option PFloat :=
  match start_balance with
  | some s => some (PFloat.val s)
  | none => last_balance store

/-- Build the appended expense row: `payment_method` is always
`"UPI"`. -/
def expense_row (dt category description : String) (spent : Money)
    (left : PFloat) : Record :=
  { date := some dt, category := some category,
    description := description, money_spent := spent,
    money_left := left, payment_method := "UPI" }

def add_expense (store : List Record) (dt : String) (category : String)
    (description : String) (spent : Money) (money_left : Option Money)
    (start_balance : Option Money) : Except TrackerError (List Record) :=
  match expense_base store start_balance, money_left with
  | none, none => Except.error TrackerError.missingBalanceAnchor
  | some b, none =>
      Except.ok (auto_categorize
        (store ++
          [expense_row dt category description spent (PFloat.sub b spent)]))
  | _, some l =>
      Except.ok (auto_categorize
        (store ++
          [expense_row dt category description spent (PFloat.val l)]))

/-- The core of `add_income(date, description, amount,
start_balance=None)`: base = explicit `--start`, else
`last_balance() or 0.0` through `orZero` — `None` (empty ledger) and
the falsy float `0.0` give the `0.0` default, while a NaN last balance
is truthy and propagates, making the stored balance NaN — new balance
= base + amount, row stored with `money_spent = -amount` and the fixed
category `"Income"`, then `auto_categorize` over the combined
store. -/
def add_income (store : List Record) (dt : String) (description : String)
    (amount : Money) (start_balance : Option Money) : List Record :=
  let base : PFloat :=
    match start_balance with
    | some s => PFloat.val s
    | none => orZero (last_balance store)
  let new_balance : PFloat := PFloat.add base amount
  let row : Record :=
    { date := some dt, category := some "Income",
      description := description, money_spent := -amount,
      money_left := new_balance, payment_method := "UPI" }
  auto_categorize (store ++ [row])

/-- A raw numeric cell of an imported file, as seen by
`pd.to_numeric(..., errors="coerce")`: either a parseable number, an
unparseable text, or a missing value. -/
inductive RawNum where
  | num (q : Money)
  | bad (s : String)
  | missing
  deriving DecidableEq, Repr

/-- Coercion of a raw numeric cell: `errors="coerce"` maps anything
unparseable or missing to `NaN`. -/
def parseNum : RawNum → PFloat
  | RawNum.num q => PFloat.val q
  | RawNum.bad _ => PFloat.nan
  | RawNum.missing => PFloat.nan

/-- A raw date cell of an imported file, as seen by
`pd.to_datetime(..., errors="coerce")`: a parseable date string, an
unparseable text, or a missing value. -/
inductive RawDate where
  | date (d : String)
  | bad (s : String)
  | missing
  deriving DecidableEq, Repr

/-- Coercion of a raw date cell: `errors="coerce"` maps anything
unparseable to `NaT` (`none`, the unknown-date sentinel). -/
def parseDate : RawDate → Option String
  | RawDate.date d => some d
  | RawDate.bad _ => none
  | RawDate.missing => none

/-- Failure of `load_store` on a malformed stored date:
`pd.to_datetime(df["date"])` is called there without
`errors="coerce"`, so it raises on an unparseable date value and the
whole load aborts. -/
inductive LoadError where
  | malformedDate (s : String)
  deriving DecidableEq, Repr

/-- The date fix of `load_store` over the stored date column: strict
parsing — an unparseable value raises `LoadError` instead of becoming
a sentinel, while a missing cell becomes `NaT` (the unknown-date
sentinel, `none`) without failing.  `load_store` performs no numeric
coercion at all. -/
def load_dates : List RawDate → Except LoadError (List (Option String))
  | [] => Except.ok []
  | RawDate.date d :: rest =>
      (load_dates rest).map fun ds => some d :: ds
  | RawDate.bad s :: _ => Except.error (LoadError.malformedDate s)
  | RawDate.missing :: rest =>
      (load_dates rest).map fun ds => none :: ds

/-- One raw row of an imported file after the header plumbing of
`normalize_columns` (lower-cased headers, the legacy `amount` column
aliased to `money_spent`, absent columns filled with `pd.NA`). -/
structure RawRow where
  date : RawDate
  category : Option String
  description : String
  money_spent : RawNum
  money_left : RawNum
  payment_method : Option String
  deriving DecidableEq, Repr

/-- The per-row type fixes of `normalize_columns`:
`date` coerced with unparseable values becoming the unknown-date
sentinel; `money_spent` coerced and then `fillna(0.0)`; `money_left`
coerced with no `fillna`, so an unparseable balance stays missing; and
`payment_method` overwritten with `"UPI"` regardless of the imported
value. -/
def normalize_row (r : RawRow) : Record :=
  { date := parseDate r.date
    category := r.category
    description := r.description
    money_spent := (parseNum r.money_spent).fillna 0
    money_left := parseNum r.money_left
    payment_method := "UPI" }

/-- The `money_left` column of a store, in order. -/
def mlefts (rs : List Record) : List PFloat :=
  rs.map fun r => r.money_left

/-- Running balances left by successive expenses: starting from base
`b`, each spent amount `x` moves the balance to `b - x`. -/
def chain (b : Money) : List Money → List Money
  | [] => []
  | x :: xs => (b - x) :: chain (b - x) xs

/-- The caller-supplied arguments of one `add` command that neither
overrides `--left` nor (beyond the very first entry) passes
`--start`. -/
structure ExpenseInput where
  date : String
  category : String
  description : String
  spent : Money
  deriving DecidableEq, Repr

/-- Run a sequence of `add` commands with no `--left` and no `--start`
against a store, stopping at the first error. -/
def add_expenses_from (store : List Record) :
    List ExpenseInput → Except TrackerError (List Record)
  | [] => Except.ok store
  | it :: rest =>
      match add_expense store it.date it.category it.description it.spent
          none none with
      | Except.error e => Except.error e
      | Except.ok s1 => add_expenses_from s1 rest

/-- The balance-chaining scenario of the specification: an empty store,
a first `add` carrying `--start B0`, and every further `add` with
neither `--left` nor `--start`. -/
def run_scenario (B0 : Money) :
    List ExpenseInput → Except TrackerError (List Record)
  | [] => Except.ok []
  | it :: rest =>
      match add_expense [] it.date it.category it.description it.spent
          none (some B0) with
      | Except.error e => Except.error e
      | Except.ok s1 => add_expenses_from s1 rest

/-- One store-mutating invocation of the tracker: `add` (succeeding),
`income`, `import`, or the `categorize` maintenance command.
`import_file` normalizes and auto-categorizes the incoming rows,
concatenates them after the existing store and re-runs
`auto_categorize` over the combined store. -/
inductive Step : List Record → List Record → Prop where
  | expense (s s1 : List Record) (dt cat desc : String) (spent : Money)
      (left start : Option Money)
      (h : add_expense s dt cat desc spent left start = Except.ok s1) :
      Step s s1
  | income (s : List Record) (dt desc : String) (amount : Money)
      (start : Option Money) :
      Step s (add_income s dt desc amount start)
  | importFile (s : List Record) (raws : List RawRow) :
      Step s (auto_categorize (s ++ auto_categorize (raws.map normalize_row)))
  | recategorize (s : List Record) :
      Step s (auto_categorize s)

/-- Stores reachable from the freshly bootstrapped (empty) store by a
sequence of tracker invocations. -/
abbrev Reaches (s : List Record) : Prop :=
  Relation.ReflTransGen Step [] s

/-- Concrete inputs used to instantiate the general theorems. -/
def demoItems : List ExpenseInput :=
  [ ExpenseInput.mk "2025-09-01" "-" "Starbucks Coffee" 150,
    ExpenseInput.mk "2025-09-02" "-" "uber ride" 50 ]

/-- A concrete already-categorized record. -/
def recG : Record :=
  Record.mk (some "2025-09-03") (some "Groceries") "zomato order" 120
    (PFloat.val 700) "UPI"

/-- A concrete record with mixed-case description. -/
def recMixed : Record :=
  Record.mk (some "2025-09-01") (some "Food") "Starbucks Coffee" 150
    (PFloat.val 850) "UPI"

/-- A concrete raw imported row whose numeric fields are both
unparseable and whose date is unparseable. -/
def rawBad : RawRow :=
  RawRow.mk (RawDate.bad "someday") none "lunch" (RawNum.bad "abc")
    (RawNum.bad "oops") (some "cash")

/-- A concrete stored record whose balance is missing (NaN), as
importing `rawBad` produces. -/
def recNan : Record := normalize_row rawBad

deriving instance DecidableEq for Except

-- quick sanity checks of the embedding on concrete data
example : classifyDesc "starbucks coffee" = "Food" := by decide
example : classifyDesc "zomato mall order" = "Food" := by decide
example : classifyDesc "qwerty" = "Other" := by decide
example : classify "uber ride" (some "Food") = "Food" := by decide
example : classify "uber ride" (some "  ") = "Transport" := by decide
example : lowerStr "Starbucks Coffee" = "starbucks coffee" := by decide

set_option maxRecDepth 4000

example :
    add_expense [] "2025-09-01" "-" "Starbucks Coffee" 150 none (some 1000) =
      Except.ok [Record.mk (some "2025-09-01") (some "-") "starbucks coffee"
        150 (PFloat.val 850) "UPI"] := by
  with_unfolding_all decide

example :
    add_expense [] "2025-09-01" "x" "y" 5 none none =
      Except.error TrackerError.missingBalanceAnchor := by decide

example :
    (add_income [] "2025-09-02" "Pocket money" 500 none).map
      (fun r => r.money_left) = [PFloat.val 500] := by
  with_unfolding_all decide

-- a NaN last balance is truthy, so income propagates NaN and an
-- expense append does not raise
example :
    (add_income [recNan] "2025-09-02" "Pocket money" 500 none).map
      (fun r => r.money_left) = [PFloat.nan, PFloat.nan] := by
  with_unfolding_all decide

example :
    add_expense [recNan] "2025-09-02" "x" "uber ride" 50 none none =
      Except.ok [Record.mk none (some "Other") "lunch" 0 PFloat.nan "UPI",
        Record.mk (some "2025-09-02") (some "x") "uber ride" 50 PFloat.nan
          "UPI"] := by
  with_unfolding_all decide

/-! Helper lemmas about the character-level model of `str.lower()`. -/

theorem toNat_ofNat_valid {n : ℕ} (h : n.isValidChar) :
    (Char.ofNat n).toNat = n := by
  unfold Char.ofNat
  rw [dif_pos h]
  simp [Char.ofNatAux, Char.toNat, UInt32.toNat]

theorem toLower_idem (c : Char) : c.toLower.toLower = c.toLower := by
  simp only [Char.toLower]
  by_cases h : c.toNat ≥ 65 ∧ c.toNat ≤ 90
  · rw [if_pos h]
    have hv : (c.toNat + 32).isValidChar := Or.inl (by omega)
    rw [toNat_ofNat_valid hv, if_neg (by omega)]
  · rw [if_neg h, if_neg h]

theorem lowerStr_idem (s : String) : lowerStr (lowerStr s) = lowerStr s := by
  simp [lowerStr, List.map_map, Function.comp_def, toLower_idem]

/-! Helper lemmas about the classifier. -/

theorem classifyDesc_mem_names (d : String) :
    classifyDesc d ∈ CATEGORY_RULES.map Prod.fst := by
  unfold classifyDesc
  cases h : CATEGORY_RULES.find? (fun rule => ruleMatches rule.2 d) with
  | none => decide
  | some rule =>
      exact List.mem_map_of_mem Prod.fst (List.mem_of_find?_eq_some h)

theorem pyStrip_classifyDesc_ne (d : String) :
    pyStrip (classifyDesc d) ≠ "" := by
  have h := classifyDesc_mem_names d
  simp only [CATEGORY_RULES, List.map_cons, List.map_nil, List.mem_cons,
    List.not_mem_nil, or_false] at h
  rcases h with h | h | h | h | h | h | h <;> rw [h] <;> decide

theorem pyStrip_classify_ne (d : String) (c : Option String) :
    pyStrip (classify d c) ≠ "" := by
  cases c with
  | none => simpa [classify] using pyStrip_classifyDesc_ne d
  | some c0 =>
      by_cases h : pyStrip c0 = ""
      · simpa [classify, h] using pyStrip_classifyDesc_ne d
      · simp [classify, h]

theorem classify_keep (d : String) (c : String) (h : pyStrip c ≠ "") :
    classify d (some c) = c := by
  simp [classify, h]

/-! Helper lemmas about rows and the batch classifier. -/

theorem classifyRow_frame (r : Record) :
    (classifyRow r).date = r.date ∧
    (classifyRow r).money_spent = r.money_spent ∧
    (classifyRow r).money_left = r.money_left ∧
    (classifyRow r).payment_method = r.payment_method :=
  ⟨rfl, rfl, rfl, rfl⟩

theorem classifyRow_idem (r : Record) :
    classifyRow (classifyRow r) = classifyRow r := by
  have h1 := lowerStr_idem r.description
  have h2 := classify_keep (lowerStr r.description)
    (classify (lowerStr r.description) r.category)
    (pyStrip_classify_ne (lowerStr r.description) r.category)
  simp [classifyRow, h1, h2]

theorem mlefts_append (a b : List Record) :
    mlefts (a ++ b) = mlefts a ++ mlefts b := by
  simp [mlefts]

theorem mlefts_auto (rs : List Record) :
    mlefts (auto_categorize rs) = mlefts rs := by
  simp [mlefts, auto_categorize, List.map_map, Function.comp_def, classifyRow]

/-! Helper lemmas about `last_balance`. -/

theorem orZero_eq_getD (x : Option PFloat) :
    orZero x = x.getD (PFloat.val 0) := by
  rcases x with _ | (q | _)
  · rfl
  · by_cases h : q = 0
    · simp [orZero, h]
    · simp [orZero, h]
  · rfl

theorem last_balance_append (store : List Record) (r : Record) :
    last_balance (store ++ [r]) = some r.money_left := by
  induction store with
  | nil => rfl
  | cons a t ih =>
      cases t with
      | nil => simp [last_balance]
      | cons b t2 => simpa [last_balance] using ih

theorem last_balance_map (f : Record → Record)
    (hf : ∀ r, (f r).money_left = r.money_left) :
    ∀ rs : List Record, last_balance (rs.map f) = last_balance rs
  | [] => rfl
  | [a] => by simp [last_balance, hf]
  | a :: b :: t => by
      simpa [last_balance] using last_balance_map f hf (b :: t)

theorem last_balance_auto (rs : List Record) :
    last_balance (auto_categorize rs) = last_balance rs :=
  last_balance_map classifyRow (fun _ => rfl) rs

/-! Helper lemmas unfolding `add_expense` in its three success modes
and its failure mode. -/

theorem add_expense_with_start (store : List Record) (dt cat desc : String)
    (spent B0 : Money) :
    add_expense store dt cat desc spent none (some B0) =
      Except.ok (auto_categorize (store ++
        [expense_row dt cat desc spent (PFloat.val (B0 - spent))])) := rfl

theorem add_expense_chain (store : List Record) (dt cat desc : String)
    (spent b : Money) (h : last_balance store = some (PFloat.val b)) :
    add_expense store dt cat desc spent none none =
      Except.ok (auto_categorize (store ++
        [expense_row dt cat desc spent (PFloat.val (b - spent))])) := by
  simp [add_expense, expense_base, h, PFloat.sub]

theorem add_expense_with_left (store : List Record) (dt cat desc : String)
    (spent l : Money) (start : Option Money) :
    add_expense store dt cat desc spent (some l) start =
      Except.ok (auto_categorize (store ++
        [expense_row dt cat desc spent (PFloat.val l)])) := by
  rcases start with _ | B0 <;>
    rcases h : expense_base store none with _ | b <;>
      simp [add_expense, expense_base, h]

theorem add_expense_fail (store : List Record) (dt cat desc : String)
    (spent : Money) (h : last_balance store = none) :
    add_expense store dt cat desc spent none none =
      Except.error TrackerError.missingBalanceAnchor := by
  simp [add_expense, expense_base, h]

/-! Helper lemmas for the balance-chaining scenario. -/

theorem chain_getElem? (xs : List Money) : ∀ (b : Money) (i : ℕ),
    i < xs.length →
    (chain b xs)[i]? = some (b - (xs.take (i + 1)).sum) := by
  induction xs with
  | nil => intro b i h; simp at h
  | cons x t ih =>
      intro b i h
      cases i with
      | zero => simp [chain]
      | succ n =>
          have hn : n < t.length := by simpa using h
          have hrec := ih (b - x) n hn
          simp [chain, hrec, sub_sub]

theorem add_expenses_from_ok (its : List ExpenseInput) :
    ∀ (store : List Record) (b : Money),
    last_balance store = some (PFloat.val b) →
    ∃ s, add_expenses_from store its = Except.ok s ∧
      mlefts s = mlefts store ++
        (chain b (its.map fun it => it.spent)).map PFloat.val ∧
      last_balance s =
        some (PFloat.val
          ((chain b (its.map fun it => it.spent)).getLastD b)) := by
  induction its with
  | nil =>
      intro store b h
      exact ⟨store, rfl, by simp [chain], by simpa [chain] using h⟩
  | cons it rest ih =>
      intro store b h
      have hstep := add_expense_chain store it.date it.category
        it.description it.spent b h
      set row : Record := expense_row it.date it.category it.description
        it.spent (PFloat.val (b - it.spent)) with hrow
      have h1 : last_balance (auto_categorize (store ++ [row])) =
          some (PFloat.val (b - it.spent)) := by
        rw [last_balance_auto, last_balance_append]; rfl
      obtain ⟨s, hs, hm, hl⟩ :=
        ih (auto_categorize (store ++ [row])) (b - it.spent) h1
      have h2 : mlefts (auto_categorize (store ++ [row])) =
          mlefts store ++ [PFloat.val (b - it.spent)] := by
        rw [mlefts_auto, mlefts_append]; rfl
      refine ⟨s, ?_, ?_, ?_⟩
      · simp only [add_expenses_from, hstep, hs]
      · rw [hm, h2]
        simp [chain]
      · show last_balance s = some (PFloat.val
          (((b - it.spent) :: chain (b - it.spent)
            (rest.map fun it => it.spent)).getLastD b))
        rw [List.getLastD_cons]
        exact hl

/-! Further helper lemmas: first-match search, the shape of successful
appends, and preservation of `payment_method`. -/

theorem find?_first {α : Type} (p : α → Bool) :
    ∀ (l : List α) (i : ℕ) (x : α), l[i]? = some x → p x = true →
    ∃ j y, j ≤ i ∧ l[j]? = some y ∧ p y = true ∧ l.find? p = some y
  | [], i, x, h, _ => by simp at h
  | a :: t, i, x, h, hp => by
      by_cases ha : p a
      · exact ⟨0, a, Nat.zero_le i, by simp, ha, by
          rw [List.find?_cons_of_pos _ ha]⟩
      · cases i with
        | zero =>
            simp only [List.getElem?_cons_zero, Option.some.injEq] at h
            subst h
            exact absurd hp (by simp [ha])
        | succ n =>
            simp only [List.getElem?_cons_succ] at h
            obtain ⟨j, y, hj, hy, hpy, hf⟩ := find?_first p t n x h hp
            exact ⟨j + 1, y, by omega, by simpa using hy, hpy, by
              rw [List.find?_cons_of_neg _ ha]; exact hf⟩

theorem auto_append (store : List Record) (r : Record) :
    auto_categorize (store ++ [r]) =
      auto_categorize store ++ [classifyRow r] := by
  simp [auto_categorize]

theorem add_income_eq (store : List Record) (dt desc : String)
    (amount : Money) (start : Option Money) :
    add_income store dt desc amount start =
      auto_categorize (store ++
        [Record.mk (some dt) (some "Income") desc (-amount)
          (PFloat.add
            (match start with
             | some s => PFloat.val s
             | none => (last_balance store).getD (PFloat.val 0))
            amount)
          "UPI"]) := by
  cases start with
  | some s => rfl
  | none => simp [add_income, orZero_eq_getD]

theorem add_expense_ok_shape (store : List Record) (dt cat desc : String)
    (spent : Money) (left start : Option Money) (s1 : List Record)
    (h : add_expense store dt cat desc spent left start = Except.ok s1) :
    ∃ l : PFloat,
      s1 = auto_categorize (store ++ [expense_row dt cat desc spent l]) := by
  unfold add_expense at h
  rcases hb : expense_base store start with _ | b
  · rcases left with _ | l
    · rw [hb] at h; simp at h
    · rw [hb] at h; simp at h; exact ⟨PFloat.val l, h.symm⟩
  · rcases left with _ | l
    · rw [hb] at h; simp at h; exact ⟨PFloat.sub b spent, h.symm⟩
    · rw [hb] at h; simp at h; exact ⟨PFloat.val l, h.symm⟩

theorem upi_auto (rs : List Record)
    (h : ∀ r ∈ rs, r.payment_method = "UPI") :
    ∀ r ∈ auto_categorize rs, r.payment_method = "UPI" := by
  intro r hr
  simp only [auto_categorize, List.mem_map] at hr
  obtain ⟨a, ha, rfl⟩ := hr
  show (classifyRow a).payment_method = "UPI"
  rw [(classifyRow_frame a).2.2.2]
  exact h a ha

theorem upi_append (store : List Record) (r : Record)
    (hs : ∀ x ∈ store, x.payment_method = "UPI")
    (hr : r.payment_method = "UPI") :
    ∀ x ∈ store ++ [r], x.payment_method = "UPI" := by
  intro x hx
  rcases List.mem_append.1 hx with hx | hx
  · exact hs x hx
  · rw [List.mem_singleton.1 hx]; exact hr

theorem upi_concat (a b : List Record)
    (ha : ∀ x ∈ a, x.payment_method = "UPI")
    (hb : ∀ x ∈ b, x.payment_method = "UPI") :
    ∀ x ∈ a ++ b, x.payment_method = "UPI" := by
  intro x hx
  rcases List.mem_append.1 hx with hx | hx
  · exact ha x hx
  · exact hb x hx

theorem upi_normalized (raws : List RawRow) :
    ∀ x ∈ raws.map normalize_row, x.payment_method = "UPI" := by
  intro x hx
  obtain ⟨raw, _, rfl⟩ := List.mem_map.1 hx
  rfl

theorem upi_step (a b : List Record) (hstep : Step a b)
    (ih : ∀ r ∈ a, r.payment_method = "UPI") :
    ∀ r ∈ b, r.payment_method = "UPI" := by
  cases hstep with
  | expense _ dt cat desc spent left start hadd =>
      obtain ⟨l, rfl⟩ := add_expense_ok_shape a dt cat desc spent left
        start b hadd
      exact upi_auto _ (upi_append a _ ih rfl)
  | income dt desc amount start =>
      rw [add_income_eq]
      exact upi_auto _ (upi_append a _ ih rfl)
  | importFile raws =>
      exact upi_auto _
        (upi_concat a _ ih (upi_auto _ (upi_normalized raws)))
  | recategorize =>
      exact upi_auto _ ih

theorem load_dates_ok (ds : List RawDate) (h : ∀ s, RawDate.bad s ∉ ds) :
    load_dates ds = Except.ok (ds.map parseDate) := by
  induction ds with
  | nil => rfl
  | cons c rest ih =>
      have hrest : ∀ s, RawDate.bad s ∉ rest := fun s hs =>
        h s (List.mem_cons_of_mem _ hs)
      cases c with
      | date d => simp [load_dates, ih hrest, parseDate, Except.map]
      | bad s => exact absurd (List.mem_cons_self _ _) (h s)
      | missing => simp [load_dates, ih hrest, parseDate, Except.map]

theorem load_dates_err (ds : List RawDate) (s : String)
    (h : RawDate.bad s ∈ ds) :
    ∃ t, load_dates ds = Except.error (LoadError.malformedDate t) := by
  induction ds with
  | nil => simp at h
  | cons c rest ih =>
      cases c with
      | bad t => exact ⟨t, rfl⟩
      | date d =>
          have hm : RawDate.bad s ∈ rest := by
            rcases List.mem_cons.1 h with h1 | h1
            · exact RawDate.noConfusion h1
            · exact h1
          obtain ⟨t, ht⟩ := ih hm
          exact ⟨t, by simp [load_dates, ht, Except.map]⟩
      | missing =>
          have hm : RawDate.bad s ∈ rest := by
            rcases List.mem_cons.1 h with h1 | h1
            · exact RawDate.noConfusion h1
            · exact h1
          obtain ⟨t, ht⟩ := ih hm
          exact ⟨t, by simp [load_dates, ht, Except.map]⟩

/-! The claims. -/

/-- C2: appending an expense to an empty ledger with neither a starting
balance nor an explicit resulting balance fails with the
missing-balance-anchor error (raised before anything is written, so
the persisted ledger is untouched), while supplying either a starting
balance or an explicit resulting balance makes the append succeed. -/
theorem missing_anchor_failure (dt cat desc : String) (spent : Money) :
    add_expense [] dt cat desc spent none none =
        Except.error TrackerError.missingBalanceAnchor ∧
      (∀ B0 : Money, ∃ s, add_expense [] dt cat desc spent none (some B0) =
        Except.ok s) ∧
      (∀ l : Money, ∃ s, add_expense [] dt cat desc spent (some l) none =
        Except.ok s) :=
  ⟨add_expense_fail [] dt cat desc spent rfl,
   fun B0 => ⟨_, add_expense_with_start [] dt cat desc spent B0⟩,
   fun l => ⟨_, add_expense_with_left [] dt cat desc spent l none⟩⟩

/-- C3: a category that is non-empty after stripping whitespace is
never overwritten, by `classify` on a single pair and by
`auto_categorize` at any position of the store; a whitespace-only
category counts as unset and is recomputed from the description. -/
theorem write_once_category (c : String) (desc : String) :
    (pyStrip c ≠ "" → classify desc (some c) = c) ∧
    (pyStrip c = "" → classify desc (some c) = classifyDesc desc) ∧
    (∀ (rs : List Record) (i : ℕ), pyStrip c ≠ "" →
      (rs[i]?.map fun r => r.category) = some (some c) →
      ((auto_categorize rs)[i]?.map fun r => r.category) = some (some c)) := by
  refine ⟨fun h => classify_keep desc c h, fun h => by simp [classify, h], ?_⟩
  intro rs i hc hcat
  cases hr : rs[i]? with
  | none => rw [hr] at hcat; simp at hcat
  | some r =>
      rw [hr] at hcat
      have hcat2 : r.category = some c := by simpa using hcat
      have hauto : (auto_categorize rs)[i]? = some (classifyRow r) := by
        simp [auto_categorize, hr]
      rw [hauto]
      have hkeep : (classifyRow r).category = some c := by
        simp [classifyRow, hcat2, classify_keep _ c hc]
      show some (classifyRow r).category = some (some c)
      rw [hkeep]

/-- Witness for C3 at a concrete record whose category is set. -/
theorem write_once_category_witness :
    pyStrip "Groceries" ≠ "" ∧
    classify "zomato order" (some "Groceries") = "Groceries" ∧
    ((auto_categorize [recG])[0]?.map fun r => r.category) =
      some (some "Groceries") := by
  have h := write_once_category "Groceries" "zomato order"
  exact ⟨by decide, h.1 (by decide),
    h.2.2 [recG] 0 (by decide) (by with_unfolding_all decide)⟩

/-- C5: `add_income` appends exactly one record, stored with
`money_spent = -amount`, category fixed to `"Income"` (which the
classifier run over the combined store does not change), and
`money_left = base + amount` in float arithmetic, where base is the
explicit starting balance if given, else the last stored balance
(possibly NaN, which is truthy for Python's `or` and so propagates
into the stored balance), else `0` when the ledger is empty — in
particular income into an empty ledger with no starting balance
succeeds with base `0`. -/
theorem income_sign_convention (store : List Record) (dt desc : String)
    (amount : Money) (start : Option Money) :
    ∃ r, (add_income store dt desc amount start).getLast? = some r ∧
      r.money_spent = -amount ∧
      r.category = some "Income" ∧
      r.money_left = PFloat.add
        (match start with
         | some s => PFloat.val s
         | none => (last_balance store).getD (PFloat.val 0)) amount ∧
      (add_income store dt desc amount start).length = store.length + 1 := by
  rw [add_income_eq]
  set row : Record := Record.mk (some dt) (some "Income") desc (-amount)
    (PFloat.add
      (match start with
       | some s => PFloat.val s
       | none => (last_balance store).getD (PFloat.val 0))
      amount) "UPI" with hrow
  refine ⟨classifyRow row, ?_, ?_, ?_, ?_, ?_⟩
  · rw [auto_append, List.getLast?_concat]
  · rfl
  · show some (classify (lowerStr row.description) row.category) =
      some "Income"
    rw [show row.category = some "Income" from rfl]
    rw [classify_keep _ "Income" (by decide)]
  · rfl
  · simp [auto_categorize]

/-- C8: the full-store re-categorization is idempotent — a second run
of `auto_categorize` on its own output changes nothing. -/
theorem recategorize_idem (rs : List Record) :
    auto_categorize (auto_categorize rs) = auto_categorize rs := by
  simp only [auto_categorize, List.map_map]
  exact List.map_congr_left fun r _ => classifyRow_idem r

/-- C9 counterexample: on an imported row whose `money_left` cell is
unparseable, normalization does not coerce `money_left` to `0.0` (it
leaves it NaN), and on a stored row whose date is unparseable the load
fails outright instead of producing the unknown-date sentinel: both
halves of the claim fail. -/
theorem coercion_counterexample :
    ((normalize_row rawBad).money_left ≠ PFloat.val 0 ∧
      (normalize_row rawBad).money_left = PFloat.nan) ∧
    load_dates [RawDate.bad "someday"] =
      Except.error (LoadError.malformedDate "someday") := by
  refine ⟨⟨?_, ?_⟩, ?_⟩ <;> decide

/-- C9 as amended: on the import path, `normalize_columns` coerces an
unparseable `money_spent` to `0.0`, leaves an unparseable `money_left`
as the missing value NaN, turns an unparseable date into the
unknown-date sentinel, and is total (a function into `Record`), never
failing on a malformed field; the load path, by contrast, performs no
numeric coercion and parses the stored date column strictly, so it
succeeds exactly on columns with no unparseable date (missing cells
become the sentinel) and aborts with an error as soon as one date
value is unparseable. -/
theorem coercion_defaults :
    (∀ r : RawRow,
      (parseNum r.money_spent = PFloat.nan →
        (normalize_row r).money_spent = 0) ∧
      (parseNum r.money_left = PFloat.nan →
        (normalize_row r).money_left = PFloat.nan) ∧
      (parseDate r.date = none → (normalize_row r).date = none)) ∧
    (∀ ds : List RawDate, (∀ s, RawDate.bad s ∉ ds) →
      load_dates ds = Except.ok (ds.map parseDate)) ∧
    (∀ (ds : List RawDate) (s : String), RawDate.bad s ∈ ds →
      ∃ t, load_dates ds = Except.error (LoadError.malformedDate t)) := by
  refine ⟨fun r => ⟨fun h => ?_, fun h => ?_, fun h => ?_⟩,
    load_dates_ok, load_dates_err⟩
  · simp [normalize_row, h, PFloat.fillna]
  · simp [normalize_row, h]
  · simp [normalize_row, h]

/-- Witness for C9's amended claim at concrete malformed and
well-formed inputs. -/
theorem coercion_defaults_witness :
    (normalize_row rawBad).money_spent = 0 ∧
    (normalize_row rawBad).money_left = PFloat.nan ∧
    (normalize_row rawBad).date = none ∧
    load_dates [RawDate.date "2025-01-01", RawDate.missing] =
      Except.ok [some "2025-01-01", none] ∧
    load_dates [RawDate.date "2025-01-01", RawDate.bad "someday"] =
      Except.error (LoadError.malformedDate "someday") := by
  have h := coercion_defaults
  refine ⟨(h.1 rawBad).1 (by decide), (h.1 rawBad).2.1 (by decide),
    (h.1 rawBad).2.2 (by decide), ?_, ?_⟩
  · have hok := h.2.1 [RawDate.date "2025-01-01", RawDate.missing]
      (by intro s; simp)
    simpa [parseDate] using hok
  · obtain ⟨t, ht⟩ := h.2.2 [RawDate.date "2025-01-01",
      RawDate.bad "someday"] "someday" (by simp)
    decide

/-- C1: starting from an empty store with a first `add --start B0` and
no `--left` anywhere, every append succeeds and the `money_left`
column is the running chain of balances; in particular the i-th
record's `money_left` equals `B0` minus the sum of `money_spent` over
records `1..i+1` (0-indexed `i`). -/
theorem balance_chaining (B0 : Money) (items : List ExpenseInput) :
    ∃ s, run_scenario B0 items = Except.ok s ∧
      mlefts s = (chain B0 (items.map fun it => it.spent)).map PFloat.val ∧
      ∀ i : ℕ, i < items.length →
        (mlefts s)[i]? =
          some (PFloat.val (B0 -
            ((items.map fun it => it.spent).take (i + 1)).sum)) := by
  cases items with
  | nil =>
      refine ⟨[], rfl, by simp [chain, mlefts], ?_⟩
      intro i hi
      simp at hi
  | cons it rest =>
      have hstep := add_expense_with_start [] it.date it.category
        it.description it.spent B0
      set row : Record := expense_row it.date it.category it.description
        it.spent (PFloat.val (B0 - it.spent)) with hrow
      have h1 : last_balance (auto_categorize ([] ++ [row])) =
          some (PFloat.val (B0 - it.spent)) := by
        rw [last_balance_auto, last_balance_append]; rfl
      obtain ⟨s, hs, hm, _⟩ :=
        add_expenses_from_ok rest (auto_categorize ([] ++ [row]))
          (B0 - it.spent) h1
      have hms : mlefts s =
          (chain B0 ((it :: rest).map fun it => it.spent)).map
            PFloat.val := by
        rw [hm, mlefts_auto]
        simp [mlefts, chain, hrow, expense_row]
      refine ⟨s, ?_, hms, ?_⟩
      · simp only [run_scenario, hstep, hs]
      · intro i hi
        rw [hms, List.getElem?_map,
          chain_getElem? _ _ _ (by simpa using hi)]
        rfl

/-- Witness for C1: two concrete expense appends from starting balance
1000 leave the balance column [850, 800]. -/
theorem balance_chaining_witness :
    (run_scenario 1000 demoItems).map mlefts =
      Except.ok [PFloat.val 850, PFloat.val 800] := by
  obtain ⟨s, hs, hm, hidx⟩ := balance_chaining 1000 demoItems
  have h1 := hidx 1 (by decide)
  rw [hs]
  show Except.ok (mlefts s) = Except.ok [PFloat.val 850, PFloat.val 800]
  rw [hm]
  with_unfolding_all decide

/-- C4: the configured rule order is Food, Transport, Shopping,
Housing, Health, Pleasure, Other (unconditional fallback last); the
classifier returns the label of the first matching rule, so a
description matching a later rule as well resolves to the earlier one;
concretely, "zomato mall order" matches the Shopping rule but
classifies as "Food". -/
theorem priority_order :
    CATEGORY_RULES.map Prod.fst =
      ["Food", "Transport", "Shopping", "Housing", "Health", "Pleasure",
        "Other"] ∧
    (∀ (desc : String) (i : ℕ) (rule : String × List String),
      CATEGORY_RULES[i]? = some rule → ruleMatches rule.2 desc = true →
      ∃ j rule2, j ≤ i ∧ CATEGORY_RULES[j]? = some rule2 ∧
        ruleMatches rule2.2 desc = true ∧ classifyDesc desc = rule2.1) ∧
    classify (lowerStr "zomato mall order") none = "Food" ∧
    (CATEGORY_RULES[2]?.map Prod.fst = some "Shopping" ∧
      (CATEGORY_RULES[2]?.map fun rule =>
        ruleMatches rule.2 "zomato mall order") = some true) := by
  refine ⟨by decide, ?_, by decide, by decide, by decide⟩
  intro desc i rule hget hmatch
  obtain ⟨j, rule2, hj, hget2, hp, hfind⟩ :=
    find?_first (fun rule => ruleMatches rule.2 desc) CATEGORY_RULES i rule
      hget hmatch
  refine ⟨j, rule2, hj, hget2, hp, ?_⟩
  unfold classifyDesc
  rw [hfind]

/-- Witness for C4: the first-match property applied at the Shopping
rule (index 2) and the overlapping description. -/
theorem priority_order_witness :
    classifyDesc "zomato mall order" = "Food" ∧
    classifyDesc "mall order" = "Shopping" := by
  have h := priority_order.2.1 "zomato mall order" 2
    ("Shopping", ["amazon", "flipkart", "myntra", "nykaa", "zara", "h&m",
      "mall", "store", "earphones", "clothes"]) (by decide) (by decide)
  exact ⟨by decide, by decide⟩

/-- C6: `auto_categorize` preserves order and every field other than
`category` and the casing of `description` — but it lower-cases the
description in place, so a mixed-case description is NOT returned
exactly as provided: the claim fails on `recMixed`. -/
theorem description_lowercased :
    auto_categorize [recMixed] =
      [Record.mk (some "2025-09-01") (some "Food") "starbucks coffee" 150
        (PFloat.val 850) "UPI"] ∧
    recMixed.description = "Starbucks Coffee" ∧
    "starbucks coffee" ≠ recMixed.description := by
  refine ⟨?_, by decide, by decide⟩
  with_unfolding_all decide

/-- C7: passing the category sentinel string "-" does not trigger
auto-classification: "-" is non-empty after stripping, so `classify`
keeps it, and the stored record's category is the literal "-" even
though the classifier would derive "Food" from the description. -/
theorem dash_sentinel_kept :
    add_expense [] "2025-09-01" "-" "Starbucks Coffee" 150 none
        (some 1000) =
      Except.ok [Record.mk (some "2025-09-01") (some "-")
        "starbucks coffee" 150 (PFloat.val 850) "UPI"] ∧
    classifyDesc (lowerStr "Starbucks Coffee") = "Food" := by
  refine ⟨?_, by decide⟩
  with_unfolding_all decide

/-- C10: every store reachable from the empty store by tracker
operations (expense append, income append, file import, explicit
re-categorization) contains only records whose `payment_method` is
"UPI". -/
theorem payment_method_upi (s : List Record) (h : Reaches s) :
    ∀ r ∈ s, r.payment_method = "UPI" := by
  induction h with
  | refl => intro r hr; simp at hr
  | tail hsteps hstep ih => exact upi_step _ _ hstep ih

/-- Witness for C10 at a concrete reachable store. -/
theorem payment_method_upi_witness :
    (add_income [] "2025-09-02" "Pocket money" 500 none).all
      (fun r => r.payment_method == "UPI") = true := by
  have h := payment_method_upi
    (add_income [] "2025-09-02" "Pocket money" 500 none)
    (Relation.ReflTransGen.single
      (Step.income [] "2025-09-02" "Pocket money" 500 none))
  rw [List.all_eq_true]
  intro r hr
  simpa using h r hr

end Tracker
